import Mathlib

/-!
Verification of the `floating` softfloat library (crate `floating`,
files `src/lib.rs`, `src/add.rs`, `src/classify.rs`).

The Rust code operates on arbitrary-precision unsigned integers
(`BigUint`); we embed bit patterns and field values as `Nat`.  Rust
panics (failed `assert!`, `todo!()`, `BigUint` subtraction underflow,
indexing an empty digit vector) are modelled by `Option`: `none` means
the call aborts.  Two places in the source extract a single `u64` digit
of a `BigUint` (`to_u64_digits`); at every reachable call site the value
fits in one digit (all intermediate mantissas are below `2 ^ (SIG + 5)`,
and `SIG ≤ 53` for the three instantiated formats), so the digit equals
the value itself and we use the `Nat` directly.
-/

namespace Floating

/-- The `FloatType` trait: exponent width `EXP` and significand width
`SIG` (including the hidden bit).  Instances in the source: `f16`,
`f32`, `f64`. -/
structure FloatType where
  EXP : Nat
  SIG : Nat
deriving DecidableEq

/-- `WIDTH = EXP + SIG`. -/
def FloatType.WIDTH (T : FloatType) : Nat := T.EXP + T.SIG

/-- `bias() = (1 << (EXP - 1)) - 1`. -/
def FloatType.bias (T : FloatType) : Nat := 2 ^ (T.EXP - 1) - 1

/-- `max_exp() = (1 << EXP) - 1`. -/
def FloatType.max_exp (T : FloatType) : Nat := 2 ^ T.EXP - 1

/-- `impl FloatType for f16`: `EXP = 5`, `SIG = 11`. -/
def f16 : FloatType := ⟨5, 11⟩

/-- `impl FloatType for f32`: `EXP = 8`, `SIG = 24`. -/
def f32 : FloatType := ⟨8, 24⟩

/-- `impl FloatType for f64`: `EXP = 11`, `SIG = 53`. -/
def f64 : FloatType := ⟨11, 53⟩

/-- `range(num, upper, lower) = (num >> lower) & ((1 << (upper - lower + 1)) - 1)`.
The Rust function asserts `upper >= lower`; every call below satisfies
that bound for the instantiated formats. -/
def range (num upper lower : Nat) : Nat :=
  (num >>> lower) &&& (2 ^ (upper - lower + 1) - 1)

/-- `bit(num, idx) = (num >> idx) & 1`. -/
def bit (num idx : Nat) : Nat := (num >>> idx) &&& 1

/-- `extract`: split a `WIDTH`-bit pattern into `(sign, exponent, mantissa)`. -/
def extract (T : FloatType) (num : Nat) : Nat × Nat × Nat :=
  (bit num (T.WIDTH - 1),
   range num (T.WIDTH - 2) (T.SIG - 1),
   range num (T.SIG - 2) 0)

/-- `pack`: validate the three fields (`assert!`, modelled by `none` on
failure) and concatenate `(sign << (WIDTH-1)) + (exp << (SIG-1)) + man`. -/
def pack (T : FloatType) (sign exp man : Nat) : Option Nat :=
  if sign < 2 ∧ exp < 2 ^ T.EXP ∧ man < 2 ^ (T.SIG - 1) then
    some ((sign <<< (T.WIDTH - 1)) + (exp <<< (T.SIG - 1)) + man)
  else
    none

/-- The five categories of `std::num::FpCategory` used by `classify.rs`. -/
inductive FpCategory where
  | Zero
  | Subnormal
  | Normal
  | Infinite
  | Nan
deriving DecidableEq

/-- `softfloat_classify` from `classify.rs`, on the bit pattern. -/
def softfloat_classify (T : FloatType) (a : Nat) : FpCategory :=
  let f := extract T a
  let exp_a := f.2.1
  let man_a := f.2.2
  if exp_a = 0 ∧ man_a = 0 then .Zero
  else if exp_a = 0 ∧ man_a ≠ 0 then .Subnormal
  else if exp_a = T.max_exp ∧ man_a = 0 then .Infinite
  else if exp_a = T.max_exp ∧ man_a ≠ 0 then .Nan
  else .Normal

/-- `round`: round to nearest even using the low three (guard, round,
sticky) bits.  Rust reads the low bits from the single `u64` digit of
the mantissa, which equals `man &&& 0b111` for all reachable values. -/
def round (man : Nat) : Nat :=
  let low_bits := man &&& 0b111
  let res := man >>> 3
  if low_bits < 0b100 then res
  else if low_bits > 0b100 then res + 1
  else if res &&& 1 = 1 then res + 1
  else res

/-- `rshift_sticky`: right shift, OR-ing any shifted-out 1 into the LSB. -/
def rshift_sticky (man : Nat) (shift : Nat) : Nat :=
  if man &&& (2 ^ shift - 1) ≠ 0 then (man >>> shift) ||| 1
  else man >>> shift

/-- `u64::leading_zeros` of a nonzero value below `2 ^ 64`; both call
sites in `effective_sub` guarantee those bounds for the instantiated
formats. -/
def leading_zeros (n : Nat) : Nat := 64 - (Nat.log2 n + 1)

/-- `effective_add` from `add.rs`: addition of operands with the same
effective sign.  `none` models a panic (a failed `pack` assertion). -/
def effective_add (T : FloatType)
    (sign_a exp_a man_a sign_b exp_b man_b : Nat) : Option Nat :=
  let norm_bit := 1 <<< (T.SIG - 1)
  if exp_a = exp_b then
    if exp_a = 0 then
      -- case 1.1: subnormal/zero + subnormal/zero
      pack T sign_a 0 (man_a + man_b)
    else if exp_a = T.max_exp then
      -- case 1.2: inf/nan + inf/nan, propagate nan
      if man_a ≠ 0 then pack T sign_a T.max_exp man_a
      else if man_b ≠ 0 then pack T sign_b T.max_exp man_b
      else pack T sign_a exp_a man_a
    else
      -- case 1.3: normal + normal, add implicit 1.0
      let norm_a := man_a + norm_bit
      let norm_b := man_b + norm_bit
      let exp_c := exp_a + 1
      let man_c := norm_a + norm_b
      let man_c := if man_c &&& 3 = 3 then man_c + 2 else man_c
      pack T sign_a exp_c ((man_c >>> 1) - norm_bit)
  else if exp_a = T.max_exp then
    pack T sign_a exp_a man_a
  else if exp_b = T.max_exp then
    pack T sign_b exp_b man_b
  else
    -- pre left shift 3 bits for rounding
    let norm_a := man_a <<< 3
    let norm_b := man_b <<< 3
    if exp_a > exp_b then
      let norm_b := rshift_sticky
        (if exp_b ≠ 0 then norm_b + (norm_bit <<< 3) else norm_b)
        (exp_a - exp_b)
      -- the bigger one is always normal
      let man_c := norm_a + norm_b + (norm_bit <<< 3)
      let exp_c := if man_c ≥ norm_bit <<< 4 then exp_a + 1 else exp_a
      let man_c := if man_c ≥ norm_bit <<< 4 then man_c >>> 1 else man_c
      pack T sign_a exp_c (round man_c - norm_bit)
    else
      let norm_a := rshift_sticky
        (if exp_a ≠ 0 then norm_a + (norm_bit <<< 3) else norm_a)
        (exp_b - exp_a)
      let man_c := norm_a + norm_b + (norm_bit <<< 3)
      let exp_c := if man_c ≥ norm_bit <<< 4 then exp_b + 1 else exp_b
      let man_c := if man_c ≥ norm_bit <<< 4 then man_c >>> 1 else man_c
      pack T sign_a exp_c (round man_c - norm_bit)

/-- `effective_sub` from `add.rs`: addition of operands with opposite
effective signs.  `none` models a panic: a failed `pack` assertion, a
`BigUint` subtraction underflow (`exp - shift`, `norm_a - norm_b`), or
indexing the empty digit vector of a zero difference. -/
def effective_sub (T : FloatType)
    (sign_a exp_a man_a sign_b exp_b man_b : Nat) : Option Nat :=
  let norm_bit := 1 <<< (T.SIG - 1)
  if exp_a = exp_b then
    if exp_a = 0 then
      -- case 1.1: subnormal/zero - subnormal/zero
      if man_a > man_b then pack T sign_a 0 (man_a - man_b)
      else if man_a < man_b then pack T (1 - sign_a) 0 (man_b - man_a)
      else pack T 0 0 0
    else if exp_a = T.max_exp then
      -- case 1.2: inf/nan - inf/nan
      if man_a ≠ 0 then pack T sign_a exp_a man_a
      else if man_b ≠ 0 then pack T sign_b exp_b man_b
      else pack T 0 T.max_exp (1 <<< (T.SIG - 2))
    else
      -- case 1.3: normal - normal
      if man_a < man_b then
        let man_c := man_b - man_a
        let shift := leading_zeros man_c - (64 - T.SIG)
        if shift ≤ exp_a then
          pack T (1 - sign_a) (exp_a - shift) ((man_c <<< shift) - norm_bit)
        else none
      else if man_a > man_b then
        let man_c := man_a - man_b
        let shift := leading_zeros man_c - (64 - T.SIG)
        if shift ≤ exp_a then
          pack T sign_a (exp_a - shift) ((man_c <<< shift) - norm_bit)
        else none
      else
        pack T 0 0 0
  else if exp_a = T.max_exp then
    pack T sign_a exp_a man_a
  else if exp_b = T.max_exp then
    pack T sign_b exp_b man_b
  else
    -- pre shift 3 bits for rounding, hidden bit only on normal sides
    let norm_a := (if exp_a = 0 then man_a else man_a + norm_bit) <<< 3
    let norm_b := (if exp_b = 0 then man_b else man_b + norm_bit) <<< 3
    if exp_a > exp_b then
      let norm_b := rshift_sticky norm_b (exp_a - exp_b)
      if norm_a < norm_b then none
      else
        let man_c := norm_a - norm_b
        if man_c = 0 then none
        else
          let shift := leading_zeros man_c + 3 - (64 - T.SIG)
          if shift ≤ exp_a then
            pack T sign_a (exp_a - shift)
              (round ((man_c <<< shift) - (norm_bit <<< 3)))
          else none
    else
      let norm_a := rshift_sticky norm_a (exp_b - exp_a)
      if norm_b < norm_a then none
      else
        let man_c := norm_b - norm_a
        if man_c = 0 then none
        else
          let shift := leading_zeros man_c + 3 - (64 - T.SIG)
          if shift ≤ exp_b then
            pack T (1 - sign_a) (exp_b - shift)
              (round ((man_c <<< shift) - (norm_bit <<< 3)))
          else none

/-- `softfloat_add`: dispatch on the XOR of the sign bits. -/
def softfloat_add (T : FloatType) (a b : Nat) : Option Nat :=
  let fa := extract T a
  let fb := extract T b
  if fa.1 ^^^ fb.1 = 1 then
    effective_sub T fa.1 fa.2.1 fa.2.2 fb.1 fb.2.1 fb.2.2
  else
    effective_add T fa.1 fa.2.1 fa.2.2 fb.1 fb.2.1 fb.2.2

/-- `softfloat_sub`: dispatch on the XOR of the sign bits, swapped. -/
def softfloat_sub (T : FloatType) (a b : Nat) : Option Nat :=
  let fa := extract T a
  let fb := extract T b
  if fa.1 ^^^ fb.1 = 1 then
    effective_add T fa.1 fa.2.1 fa.2.2 fb.1 fb.2.1 fb.2.2
  else
    effective_sub T fa.1 fa.2.1 fa.2.2 fb.1 fb.2.1 fb.2.2

/-- `to_hardfloat` (`recFNFromFN`): standard encoding to the recoded
("hardfloat") encoding of width `WIDTH + 1`.  The subnormal branch
counts the leading zeros of the `(SIG-1)`-bit mantissa field, which for
a nonzero mantissa is `SIG - 2 - log2 sig_in`; `none` models the
`BigUint` underflow panic of `pow2k + 2 - n`, unreachable for the
instantiated formats. -/
def to_hardfloat (T : FloatType) (num : Nat) : Option Nat :=
  let sign := bit num (T.EXP + T.SIG - 1)
  let exp_in := range num (T.EXP + T.SIG - 2) (T.SIG - 1)
  let sig_in := range num (T.SIG - 2) 0
  let pow2k := 1 <<< (T.EXP - 1)
  let expsig : Option (Nat × Nat) :=
    if exp_in = 0 ∧ sig_in = 0 then
      -- zero
      some (0, 0)
    else if exp_in = 0 ∧ sig_in ≠ 0 then
      -- subnormal
      let n := T.SIG - 2 - Nat.log2 sig_in
      if n ≤ pow2k + 2 then some (pow2k + 2 - n, sig_in <<< n) else none
    else if exp_in = 2 ^ (T.EXP + 1) - 1 then
      -- special
      if sig_in = 0 then
        -- infinity
        some (0b110 <<< (T.EXP - 3), 0)
      else
        -- NaN
        some (0b111 <<< (T.EXP - 3), 0)
    else
      -- normal
      some (exp_in + pow2k + 1, sig_in)
  match expsig with
  | none => none
  | some (exp, sig) =>
    some ((sign <<< (T.EXP + T.SIG)) ||| (exp <<< (T.SIG - 1)) ||| sig)

/-- `to_flopoco`: standard encoding to the FloPoCo encoding of width
`WIDTH + 2` (two `exn` classification bits on top).  The subnormal
branch is `todo!()` in the source, i.e. it aborts: `none`. -/
def to_flopoco (T : FloatType) (num : Nat) : Option Nat :=
  let sign := bit num (T.EXP + T.SIG - 1)
  let exp_in := range num (T.EXP + T.SIG - 2) (T.SIG - 1)
  let sig_in := range num (T.SIG - 2) 0
  let fields : Option (Nat × Nat × Nat) :=
    if exp_in = 0 ∧ sig_in = 0 then
      -- zero
      some (0, 0, 0)
    else if exp_in = 0 ∧ sig_in ≠ 0 then
      -- subnormal
      none
    else if exp_in = 2 ^ (T.EXP + 1) - 1 then
      -- special
      if sig_in = 0 then
        -- infinity
        some (2, 0, 0)
      else
        -- NaN
        some (3, 0, 0)
    else
      -- normal
      some (1, exp_in, sig_in)
  match fields with
  | none => none
  | some (exn, exp, sig) =>
    some ((exn <<< (T.EXP + T.SIG)) ||| (sign <<< (T.EXP + T.SIG - 1)) |||
          (exp <<< (T.SIG - 1)) ||| sig)

/-! ### Field arithmetic for `extract` and `pack` -/

theorem bit_lt_two (num idx : Nat) : bit num idx < 2 :=
  Nat.lt_succ_of_le Nat.and_le_right

theorem bit_eq (num idx : Nat) : bit num idx = num / 2 ^ idx % 2 := by
  rw [bit, Nat.and_one_is_mod, Nat.shiftRight_eq_div_pow]

theorem range_eq (num u l : Nat) :
    range num u l = num / 2 ^ l % 2 ^ (u - l + 1) := by
  rw [range, Nat.and_pow_two_sub_one_eq_mod, Nat.shiftRight_eq_div_pow]

theorem extract_sign_eq (T : FloatType) (num : Nat) :
    (extract T num).1 = num / 2 ^ (T.WIDTH - 1) % 2 :=
  bit_eq num (T.WIDTH - 1)

theorem extract_exp_eq (T : FloatType) (hE : 1 ≤ T.EXP) (hS : 1 ≤ T.SIG)
    (num : Nat) :
    (extract T num).2.1 = num / 2 ^ (T.SIG - 1) % 2 ^ T.EXP := by
  show range num (T.WIDTH - 2) (T.SIG - 1) = _
  rw [range_eq]
  have hw : T.WIDTH = T.EXP + T.SIG := rfl
  have h : T.WIDTH - 2 - (T.SIG - 1) + 1 = T.EXP := by omega
  rw [h]

theorem extract_man_eq (T : FloatType) (hS : 2 ≤ T.SIG) (num : Nat) :
    (extract T num).2.2 = num % 2 ^ (T.SIG - 1) := by
  show range num (T.SIG - 2) 0 = _
  rw [range_eq, pow_zero, Nat.div_one]
  have : T.SIG - 2 - 0 + 1 = T.SIG - 1 := by omega
  rw [this]

theorem extract_exp_lt (T : FloatType) (hE : 1 ≤ T.EXP) (hS : 1 ≤ T.SIG)
    (num : Nat) :
    (extract T num).2.1 < 2 ^ T.EXP := by
  rw [extract_exp_eq T hE hS num]
  exact Nat.mod_lt _ (Nat.two_pow_pos _)

theorem extract_man_lt (T : FloatType) (hS : 2 ≤ T.SIG) (num : Nat) :
    (extract T num).2.2 < 2 ^ (T.SIG - 1) := by
  rw [extract_man_eq T hS num]
  exact Nat.mod_lt _ (Nat.two_pow_pos _)

/-- The concatenation of the three extracted fields reassembles the
pattern: the arithmetic core of the round-trip law. -/
theorem pack_extract_eq (T : FloatType) (hE : 1 ≤ T.EXP) (hS : 2 ≤ T.SIG)
    (b : Nat) (hb : b < 2 ^ T.WIDTH) :
    pack T (extract T b).1 (extract T b).2.1 (extract T b).2.2 = some b := by
  rw [extract_sign_eq, extract_exp_eq T hE (by omega) b, extract_man_eq T hS b, pack]
  rw [if_pos ⟨Nat.mod_lt _ (by norm_num), Nat.mod_lt _ (Nat.two_pow_pos _),
      Nat.mod_lt _ (Nat.two_pow_pos _)⟩]
  congr 1
  rw [Nat.shiftLeft_eq, Nat.shiftLeft_eq]
  have hw : T.WIDTH = T.EXP + T.SIG := rfl
  have hb2 : b / 2 ^ (T.WIDTH - 1) < 2 := by
    apply Nat.div_lt_of_lt_mul
    have hpow : 2 ^ (T.WIDTH - 1) * 2 = 2 ^ T.WIDTH := by
      rw [← pow_succ]
      congr 1
      omega
    omega
  rw [Nat.mod_eq_of_lt hb2]
  have hsw : b / 2 ^ (T.WIDTH - 1) = b / 2 ^ (T.SIG - 1) / 2 ^ T.EXP := by
    rw [Nat.div_div_eq_div_mul, ← pow_add]
    congr 2
    omega
  have hPQ : (2 : Nat) ^ (T.WIDTH - 1) = 2 ^ T.EXP * 2 ^ (T.SIG - 1) := by
    rw [← pow_add]
    congr 1
    omega
  rw [hsw, hPQ]
  conv_rhs => rw [← Nat.div_add_mod b (2 ^ (T.SIG - 1)),
    ← Nat.div_add_mod (b / 2 ^ (T.SIG - 1)) (2 ^ T.EXP)]
  ring

/-- Extraction undoes concatenation of in-range fields. -/
theorem extract_pack_eq (T : FloatType) (hE : 1 ≤ T.EXP) (hS : 2 ≤ T.SIG)
    (s e m : Nat) (hs : s < 2) (he : e < 2 ^ T.EXP) (hm : m < 2 ^ (T.SIG - 1)) :
    extract T ((s <<< (T.WIDTH - 1)) + (e <<< (T.SIG - 1)) + m) = (s, e, m) := by
  have hw : T.WIDTH = T.EXP + T.SIG := rfl
  have hPQ : (2 : Nat) ^ (T.WIDTH - 1) = 2 ^ T.EXP * 2 ^ (T.SIG - 1) := by
    rw [← pow_add]
    congr 1
    omega
  set v := (s <<< (T.WIDTH - 1)) + (e <<< (T.SIG - 1)) + m with hv
  have hvval : v = (s * 2 ^ T.EXP + e) * 2 ^ (T.SIG - 1) + m := by
    rw [hv, Nat.shiftLeft_eq, Nat.shiftLeft_eq, hPQ]
    ring
  have hdiv : v / 2 ^ (T.SIG - 1) = s * 2 ^ T.EXP + e := by
    rw [hvval, Nat.mul_comm (s * 2 ^ T.EXP + e) (2 ^ (T.SIG - 1)),
      Nat.mul_add_div (Nat.two_pow_pos _), Nat.div_eq_of_lt hm, Nat.add_zero]
  have h3 : (extract T v).2.2 = m := by
    rw [extract_man_eq T hS v, hvval, Nat.mul_comm, Nat.mul_add_mod,
      Nat.mod_eq_of_lt hm]
  have h2 : (extract T v).2.1 = e := by
    rw [extract_exp_eq T hE (by omega) v, hdiv, Nat.mul_comm, Nat.mul_add_mod,
      Nat.mod_eq_of_lt he]
  have h1 : (extract T v).1 = s := by
    rw [extract_sign_eq]
    have hq : v / 2 ^ (T.WIDTH - 1) = s := by
      rw [hPQ, Nat.mul_comm (2 ^ T.EXP) (2 ^ (T.SIG - 1)),
        ← Nat.div_div_eq_div_mul, hdiv, Nat.mul_comm s (2 ^ T.EXP),
        Nat.mul_add_div (Nat.two_pow_pos _), Nat.div_eq_of_lt he, Nat.add_zero]
    rw [hq, Nat.mod_eq_of_lt hs]
  calc extract T v = ((extract T v).1, (extract T v).2.1, (extract T v).2.2) := rfl
    _ = (s, e, m) := by rw [h1, h2, h3]

/-! ### Classification characterizations -/

theorem max_exp_ne_zero (T : FloatType) (hE : 1 ≤ T.EXP) : T.max_exp ≠ 0 := by
  unfold FloatType.max_exp
  have h := Nat.one_lt_two_pow_iff.mpr (show T.EXP ≠ 0 by omega)
  omega

theorem classify_subnormal_iff (T : FloatType) (num : Nat) :
    softfloat_classify T num = .Subnormal ↔
      (extract T num).2.1 = 0 ∧ (extract T num).2.2 ≠ 0 := by
  simp only [softfloat_classify]
  split_ifs with h1 h2 h3 h4 <;> simp_all

theorem classify_infinite_iff (T : FloatType) (hE : 1 ≤ T.EXP) (num : Nat) :
    softfloat_classify T num = .Infinite ↔
      (extract T num).2.1 = T.max_exp ∧ (extract T num).2.2 = 0 := by
  have hmax := max_exp_ne_zero T hE
  simp only [softfloat_classify]
  split_ifs with h1 h2 h3 h4 <;> simp_all <;> omega

theorem classify_nan_iff (T : FloatType) (hE : 1 ≤ T.EXP) (num : Nat) :
    softfloat_classify T num = .Nan ↔
      (extract T num).2.1 = T.max_exp ∧ (extract T num).2.2 ≠ 0 := by
  have hmax := max_exp_ne_zero T hE
  simp only [softfloat_classify]
  split_ifs with h1 h2 h3 h4 <;> simp_all <;> omega

/-! ### Special-value bit patterns -/

/-- The infinity bit pattern with the given sign bit: exponent field all
ones, mantissa field zero. -/
def inf_pattern (T : FloatType) (sign : Nat) : Nat :=
  (sign <<< (T.WIDTH - 1)) + (T.max_exp <<< (T.SIG - 1))

/-- The canonical quiet NaN produced by `Inf - Inf`: sign `0`, exponent
all ones, mantissa `2 ^ (SIG - 2)`. -/
def canonical_nan (T : FloatType) : Nat :=
  (T.max_exp <<< (T.SIG - 1)) + (1 <<< (T.SIG - 2))

/-! ### Claim theorems -/

/-- **C1** (code bug evaluation): adding the largest `f16` subnormal
`0x03FF` to itself takes the `exp_a = 0` branch of `effective_add` with
mantissa sum `0x7FE ≥ 2 ^ 10`, so `pack`'s mantissa-width assertion
fails and the call aborts instead of promoting the carry into the
exponent field. -/
theorem subnormal_carry_add_aborts :
    softfloat_add f16 0x03FF 0x03FF = none := by decide

/-- **C2** (code bug evaluation): `to_flopoco` at `f16` infinity
`0x7C00` and NaN `0x7C01` returns `exn = 01` (normal) with the exponent
and mantissa fields copied, because the special-value comparison tests
the exponent field against `2 ^ (EXP + 1) - 1`, which an `EXP`-bit field
never equals; the claimed `exn = 10` / `exn = 11` encodings are not
produced. -/
theorem to_flopoco_special_misclassified :
    to_flopoco f16 0x7C00 = some 0x17C00 ∧
    to_flopoco f16 0x7C01 = some 0x17C01 ∧
    0x17C00 >>> 16 = 1 ∧ 0x17C01 >>> 16 = 1 := by decide

/-- **C3** (code bug evaluation): `to_hardfloat` at the `f16` NaN
`0x7E00` falls through to the normal branch (the same dead
special-value comparison), producing recoded exponent
`31 + 16 + 1 = 48 = 0b110000` with the mantissa preserved, i.e.
`0xC200`, not the claimed `0b111 << (EXP - 2)` with zero significand
(`0xE000`). -/
theorem to_hardfloat_nan_misrecoded :
    to_hardfloat f16 0x7E00 = some 0xC200 ∧ 0xC200 ≠ 0xE000 := by decide

/-- **C4** (code bug evaluation): the exponent-increment path of
`effective_add` at `f16` `0x7801 + 0x7801` (exponent `30`, mantissa `1`,
both positive) reaches `max_exp = 31` with mantissa field `1`, a NaN bit
pattern rather than the claimed infinity with mantissa `0`. -/
theorem overflow_packs_nonzero_mantissa :
    softfloat_add f16 0x7801 0x7801 = some 0x7C01 ∧
    (extract f16 0x7C01).2.1 = f16.max_exp ∧
    (extract f16 0x7C01).2.2 = 1 := by decide

/-- **C6**: for every `WIDTH`-bit pattern `b`, `pack` applied to the
triple produced by `extract b` returns exactly `b` (and in particular
the `pack` assertions hold). -/
theorem pack_extract_roundtrip (T : FloatType) (hE : 1 ≤ T.EXP)
    (hS : 2 ≤ T.SIG) (b : Nat) (hb : b < 2 ^ T.WIDTH) :
    pack T (extract T b).1 (extract T b).2.1 (extract T b).2.2 = some b :=
  pack_extract_eq T hE hS b hb

/-- Witness for C6 at `f16` and the pattern of `1.0`. -/
theorem pack_extract_roundtrip_witness :
    pack f16 (extract f16 0x3C00).1 (extract f16 0x3C00).2.1
      (extract f16 0x3C00).2.2 = some 0x3C00 :=
  pack_extract_roundtrip f16 (by decide) (by decide) 0x3C00 (by decide)

/-- **C10**: `to_flopoco` aborts (`todo!()`) exactly on subnormal
inputs (biased exponent `0`, nonzero mantissa); on every other input it
returns a value. -/
theorem to_flopoco_aborts_iff_subnormal (T : FloatType) (num : Nat) :
    to_flopoco T num = none ↔ softfloat_classify T num = .Subnormal := by
  have hpow : (2 : Nat) ^ (T.EXP + 1) - 1 ≠ 0 := by
    have h := Nat.one_lt_two_pow_iff.mpr (show T.EXP + 1 ≠ 0 by omega)
    omega
  rw [classify_subnormal_iff]
  simp only [to_flopoco, extract, FloatType.WIDTH]
  by_cases h1 : range num (T.EXP + T.SIG - 2) (T.SIG - 1) = 0
  · by_cases h2 : range num (T.SIG - 2) 0 = 0
    · simp [h1, h2]
    · simp [h1, h2]
  · by_cases h3 :
      range num (T.EXP + T.SIG - 2) (T.SIG - 1) = 2 ^ (T.EXP + 1) - 1
    · by_cases h2 : range num (T.SIG - 2) 0 = 0 <;> simp [h1, h2, h3, hpow]
    · simp [h1, h3]

/-- **C8**: for every finite non-NaN value `x`, `softfloat_sub x x`
returns the positive-zero bit pattern `0`. -/
theorem sub_self_eq_pos_zero (T : FloatType) (hE : 1 ≤ T.EXP) (x : Nat)
    (hinf : softfloat_classify T x ≠ .Infinite)
    (hnan : softfloat_classify T x ≠ .Nan) :
    softfloat_sub T x x = some 0 := by
  have hemax : (extract T x).2.1 ≠ T.max_exp := by
    intro hmax
    by_cases hm : (extract T x).2.2 = 0
    · exact hinf ((classify_infinite_iff T hE x).mpr ⟨hmax, hm⟩)
    · exact hnan ((classify_nan_iff T hE x).mpr ⟨hmax, hm⟩)
  simp only [softfloat_sub]
  rw [if_neg (by rw [Nat.xor_self]; norm_num)]
  by_cases h0 : (extract T x).2.1 = 0
  · simp [effective_sub, h0, lt_irrefl, pack, Nat.two_pow_pos,
      Nat.zero_shiftLeft]
  · simp [effective_sub, h0, hemax, lt_irrefl, pack, Nat.two_pow_pos,
      Nat.zero_shiftLeft]

/-- Witness for C8 at `f16` and the pattern of `1.0`. -/
theorem sub_self_eq_pos_zero_witness :
    softfloat_sub f16 0x3C00 0x3C00 = some 0 :=
  sub_self_eq_pos_zero f16 (by decide) 0x3C00 (by decide) (by decide)

/-- **C9**: opposite-sign infinities through `softfloat_add` (either
order), and same-sign infinities through `softfloat_sub`, all produce
the canonical quiet NaN `(sign 0, exponent all ones, mantissa
`2 ^ (SIG - 2)`)`. -/
theorem inf_minus_inf_canonical_nan (T : FloatType) (hE : 1 ≤ T.EXP)
    (hS : 2 ≤ T.SIG) :
    softfloat_add T (inf_pattern T 0) (inf_pattern T 1)
        = some (canonical_nan T) ∧
    softfloat_add T (inf_pattern T 1) (inf_pattern T 0)
        = some (canonical_nan T) ∧
    softfloat_sub T (inf_pattern T 0) (inf_pattern T 0)
        = some (canonical_nan T) ∧
    softfloat_sub T (inf_pattern T 1) (inf_pattern T 1)
        = some (canonical_nan T) := by
  have hmaxlt : T.max_exp < 2 ^ T.EXP :=
    Nat.sub_lt (Nat.two_pow_pos _) (by norm_num)
  have hmax0 := max_exp_ne_zero T hE
  have hcan : (1 : Nat) <<< (T.SIG - 2) < 2 ^ (T.SIG - 1) := by
    rw [Nat.shiftLeft_eq, Nat.one_mul]
    exact Nat.pow_lt_pow_right (by norm_num) (by omega)
  have hext : ∀ s, s < 2 → extract T (inf_pattern T s) = (s, T.max_exp, 0) := by
    intro s hs
    have h := extract_pack_eq T hE hS s T.max_exp 0 hs hmaxlt (Nat.two_pow_pos _)
    rw [Nat.add_zero] at h
    exact h
  have hcore : ∀ s_a s_b : Nat,
      effective_sub T s_a T.max_exp 0 s_b T.max_exp 0
        = some (canonical_nan T) := by
    intro s_a s_b
    simp [effective_sub, hmax0, pack, hmaxlt, hcan, Nat.zero_shiftLeft,
      canonical_nan]
  have h0 := hext 0 (by norm_num)
  have h1 := hext 1 (by norm_num)
  refine ⟨?_, ?_, ?_, ?_⟩ <;>
    simp only [softfloat_add, softfloat_sub, h0, h1] <;>
    simp only [Nat.zero_xor, Nat.xor_zero, Nat.xor_self] <;>
    norm_num <;>
    exact hcore _ _

/-- Witness for C9 at `f16`. -/
theorem inf_minus_inf_canonical_nan_witness :
    softfloat_add f16 (inf_pattern f16 0) (inf_pattern f16 1)
      = some (canonical_nan f16) :=
  (inf_minus_inf_canonical_nan f16 (by decide) (by decide)).1

/-! ### Computation lemmas for the kernel -/

theorem extract_zero (T : FloatType) : extract T 0 = (0, 0, 0) := by
  simp [extract, bit, range, Nat.zero_shiftRight, Nat.zero_and]

theorem rshift_sticky_zero (k : Nat) : rshift_sticky 0 k = 0 := by
  simp [rshift_sticky, Nat.zero_and, Nat.zero_shiftRight]

theorem log2_eq_of_bounds (k n : Nat) (h1 : 2 ^ k ≤ n) (h2 : n < 2 ^ (k + 1)) :
    Nat.log2 n = k := by
  rw [Nat.log2_eq_log_two]
  exact Nat.log_eq_of_pow_le_of_lt_pow h1 h2

/-- Rounding a value whose guard, round and sticky bits are all zero
just drops the three pre-shifted bits. -/
theorem round_shiftLeft3 (a : Nat) : round (a <<< 3) = a := by
  have hlow : (a <<< 3) &&& 7 = 0 := by
    rw [show (7 : Nat) = 2 ^ 3 - 1 from rfl, Nat.and_pow_two_sub_one_eq_mod,
      Nat.shiftLeft_eq, Nat.mul_mod_left]
  simp only [round, hlow]
  norm_num

/-- **C7**: `softfloat_add x (+0)` returns `x` bit-exactly for every
value of the format, with the single exception of `x = -0`, where it
returns `+0`. -/
theorem add_pos_zero_identity (T : FloatType) (hE : 1 ≤ T.EXP)
    (hS : 2 ≤ T.SIG) (h64 : T.SIG + 3 ≤ 64) (x : Nat) (hx : x < 2 ^ T.WIDTH) :
    softfloat_add T x 0 = some (if x = 1 <<< (T.WIDTH - 1) then 0 else x) := by
  set s := (extract T x).1 with hs_def
  set e := (extract T x).2.1 with he_def
  set m := (extract T x).2.2 with hm_def
  have hslt : s < 2 := bit_lt_two x (T.WIDTH - 1)
  have helt : e < 2 ^ T.EXP := extract_exp_lt T hE (by omega) x
  have hmlt : m < 2 ^ (T.SIG - 1) := extract_man_lt T hS x
  have hmax0 := max_exp_ne_zero T hE
  have hpack : pack T s e m = some x := pack_extract_eq T hE hS x hx
  have hxval : (s <<< (T.WIDTH - 1)) + (e <<< (T.SIG - 1)) + m = x := by
    have h := hpack
    rw [pack, if_pos ⟨hslt, helt, hmlt⟩] at h
    exact Option.some.inj h
  have hneg_iff : x = 1 <<< (T.WIDTH - 1) ↔ s = 1 ∧ e = 0 ∧ m = 0 := by
    constructor
    · intro hxe
      have h := extract_pack_eq T hE hS 1 0 0 (by norm_num)
        (Nat.two_pow_pos _) (Nat.two_pow_pos _)
      simp only [Nat.zero_shiftLeft, Nat.add_zero] at h
      rw [hs_def, he_def, hm_def, hxe, h]
      exact ⟨rfl, rfl, rfl⟩
    · rintro ⟨h1, h2, h3⟩
      rw [← hxval, h1, h2, h3]
      simp
  have hz := extract_zero T
  simp only [softfloat_add, hz, ← hs_def, ← he_def, ← hm_def]
  norm_num
  by_cases hsgn : s = 1
  · -- negative x: dispatch to effective_sub
    rw [if_pos (by rw [hsgn])]
    by_cases he0 : e = 0
    · by_cases hm0 : m = 0
      · -- x = -0
        rw [if_pos (hneg_iff.mpr ⟨hsgn, he0, hm0⟩)]
        simp [effective_sub, he0, hm0, pack, Nat.two_pow_pos,
          Nat.zero_shiftLeft]
      · -- negative subnormal
        rw [if_neg (fun hc => hm0 (hneg_iff.mp hc).2.2)]
        have hcomp : effective_sub T s e m 0 0 0 = pack T s 0 (m - 0) := by
          simp [effective_sub, he0, Nat.pos_of_ne_zero hm0]
        rw [he0] at hpack
        rw [hcomp, Nat.sub_zero, hpack]
    · rw [if_neg (fun hc => he0 (hneg_iff.mp hc).2.1)]
      by_cases hemax : e = T.max_exp
      · -- negative infinity or NaN
        have hcomp : effective_sub T s e m 0 0 0 = pack T s e m := by
          simp [effective_sub, he0, hemax, hmax0]
        rw [hcomp, hpack]
      · -- negative normal
        have hgt : 0 < e := Nat.pos_of_ne_zero he0
        have hbmax : (0 : Nat) ≠ T.max_exp := fun h => hmax0 h.symm
        have hS1 : 2 ^ (T.SIG - 1) + 2 ^ (T.SIG - 1) = 2 ^ T.SIG := by
          rw [← Nat.two_mul, ← pow_succ']
          congr 1
          omega
        have hlog : Nat.log2 ((m + 1 <<< (T.SIG - 1)) <<< 3) = T.SIG + 2 := by
          apply log2_eq_of_bounds
          · rw [Nat.shiftLeft_eq, Nat.shiftLeft_eq, Nat.one_mul]
            calc 2 ^ (T.SIG + 2) = 2 ^ (T.SIG - 1) * 2 ^ 3 := by
                  rw [← pow_add]
                  congr 1
                  omega
              _ ≤ (m + 2 ^ (T.SIG - 1)) * 2 ^ 3 :=
                  Nat.mul_le_mul_right _ (Nat.le_add_left _ _)
          · rw [Nat.shiftLeft_eq, Nat.shiftLeft_eq, Nat.one_mul]
            calc (m + 2 ^ (T.SIG - 1)) * 2 ^ 3 < 2 ^ T.SIG * 2 ^ 3 :=
                  (Nat.mul_lt_mul_right (by norm_num)).mpr (by omega)
              _ = 2 ^ (T.SIG + 2 + 1) := by
                  rw [← pow_add]
        have hshift : leading_zeros ((m + 1 <<< (T.SIG - 1)) <<< 3) + 3
            - (64 - T.SIG) = 0 := by
          rw [leading_zeros, hlog]
          omega
        have hnz : (m + 1 <<< (T.SIG - 1)) <<< 3 ≠ 0 := by
          rw [Nat.shiftLeft_eq, Nat.shiftLeft_eq, Nat.one_mul]
          positivity
        have hsub : (m + 1 <<< (T.SIG - 1)) <<< 3 - (1 <<< (T.SIG - 1)) <<< 3
            = m <<< 3 := by
          rw [Nat.shiftLeft_eq, Nat.shiftLeft_eq, Nat.shiftLeft_eq,
            Nat.one_mul, Nat.add_mul]
          omega
        have hcomp : effective_sub T s e m 0 0 0 = pack T s e m := by
          simp [effective_sub, he0, hemax, hbmax, hgt, rshift_sticky_zero,
            Nat.zero_shiftLeft, Nat.sub_zero, hnz, hshift, Nat.shiftLeft_zero,
            hsub, round_shiftLeft3]
        rw [hcomp, hpack]
  · -- positive x: dispatch to effective_add
    have hs0 : s = 0 := by omega
    rw [if_neg (by rw [hs0]; norm_num)]
    rw [if_neg (fun hc => by have h := (hneg_iff.mp hc).1; omega)]
    by_cases he0 : e = 0
    · -- positive subnormal or +0
      have hcomp : effective_add T s e m 0 0 0 = pack T s 0 (m + 0) := by
        simp [effective_add, he0]
      rw [he0] at hpack
      rw [hcomp, Nat.add_zero, hpack]
    · by_cases hemax : e = T.max_exp
      · have hcomp : effective_add T s e m 0 0 0 = pack T s e m := by
          simp [effective_add, he0, hemax, hmax0]
        rw [hcomp, hpack]
      · -- positive normal
        have hgt : 0 < e := Nat.pos_of_ne_zero he0
        have hbmax : (0 : Nat) ≠ T.max_exp := fun h => hmax0 h.symm
        have hcomb : m <<< 3 + (1 <<< (T.SIG - 1)) <<< 3
            = (m + 1 <<< (T.SIG - 1)) <<< 3 := by
          simp only [Nat.shiftLeft_eq]
          ring
        have hnc : ¬((m + 1 <<< (T.SIG - 1)) <<< 3 ≥ (1 <<< (T.SIG - 1)) <<< 4) := by
          simp only [Nat.shiftLeft_eq, Nat.one_mul, ge_iff_le, not_le]
          calc (m + 2 ^ (T.SIG - 1)) * 2 ^ 3
              < (2 ^ (T.SIG - 1) + 2 ^ (T.SIG - 1)) * 2 ^ 3 :=
                (Nat.mul_lt_mul_right (by norm_num)).mpr (by omega)
            _ = 2 ^ (T.SIG - 1) * 2 ^ 4 := by ring
        have hdrop : (m + 1 <<< (T.SIG - 1)) - 1 <<< (T.SIG - 1) = m := by
          omega
        have hcomp : effective_add T s e m 0 0 0 = pack T s e m := by
          simp [effective_add, he0, hemax, hbmax, hgt, rshift_sticky_zero,
            Nat.zero_shiftLeft, hcomb, hnc, round_shiftLeft3, hdrop]
        rw [hcomp, hpack]

/-- Witness for C7 at `f16`: `1.0 + (+0) = 1.0`. -/
theorem add_pos_zero_identity_witness :
    softfloat_add f16 0x3C00 0 = some (if 0x3C00 = 1 <<< (f16.WIDTH - 1) then 0 else 0x3C00) :=
  add_pos_zero_identity f16 (by decide) (by decide) (by decide) 0x3C00 (by decide)

/-! ### Commutativity of the kernel -/

/-- `effective_add` is symmetric in its operands when both carry the
same sign bit, except when both operands are NaNs (equal maximal
exponents with two nonzero mantissas), where the first payload wins. -/
theorem effective_add_comm (T : FloatType) (s e_a m_a e_b m_b : Nat)
    (hnan : ¬(e_a = T.max_exp ∧ e_b = T.max_exp ∧ m_a ≠ 0 ∧ m_b ≠ 0)) :
    effective_add T s e_a m_a s e_b m_b = effective_add T s e_b m_b s e_a m_a := by
  by_cases heq : e_a = e_b
  · subst heq
    by_cases h0 : e_a = 0
    · simp [effective_add, h0, Nat.add_comm]
    · by_cases hmax : e_a = T.max_exp
      · by_cases ha : m_a = 0
        · by_cases hb : m_b = 0
          · simp [effective_add, h0, hmax, ha, hb]
          · simp [effective_add, h0, hmax, ha, hb]
        · have hb : m_b = 0 := by
            by_contra hb
            exact hnan ⟨hmax, hmax, ha, hb⟩
          simp [effective_add, h0, hmax, ha, hb]
      · simp [effective_add, h0, hmax, Nat.add_comm, Nat.add_left_comm]
  · have hne : e_b ≠ e_a := Ne.symm heq
    by_cases hamax : e_a = T.max_exp
    · have hbmax : e_b ≠ T.max_exp := fun hc => heq (hamax.trans hc.symm)
      have hbmax2 : T.max_exp ≠ e_b := fun hc => hbmax hc.symm
      simp [effective_add, heq, hne, hamax, hbmax, hbmax2]
    · by_cases hbmax : e_b = T.max_exp
      · have hamax2 : T.max_exp ≠ e_a := fun hc => hamax hc.symm
        simp [effective_add, heq, hne, hamax, hbmax, hamax2]
      · rcases Nat.lt_or_ge e_a e_b with hlt | hge
        · have hnlt : ¬(e_b < e_a) := Nat.lt_asymm hlt
          simp [effective_add, heq, hne, hamax, hbmax, hlt, hnlt,
            Nat.add_comm, Nat.add_left_comm]
        · have hlt : e_b < e_a := Nat.lt_of_le_of_ne hge hne
          have hnlt : ¬(e_a < e_b) := Nat.lt_asymm hlt
          simp [effective_add, heq, hne, hamax, hbmax, hlt, hnlt,
            Nat.add_comm, Nat.add_left_comm]

/-- `effective_sub` is symmetric in its operands when their sign bits
differ (as the `softfloat_add` dispatcher guarantees), except when both
operands are NaNs. -/
theorem effective_sub_comm (T : FloatType) (s_a e_a m_a s_b e_b m_b : Nat)
    (hs1 : 1 - s_a = s_b) (hs2 : 1 - s_b = s_a)
    (hnan : ¬(e_a = T.max_exp ∧ e_b = T.max_exp ∧ m_a ≠ 0 ∧ m_b ≠ 0)) :
    effective_sub T s_a e_a m_a s_b e_b m_b
      = effective_sub T s_b e_b m_b s_a e_a m_a := by
  by_cases heq : e_a = e_b
  · subst heq
    by_cases h0 : e_a = 0
    · rcases Nat.lt_trichotomy m_a m_b with hm | hm | hm
      · simp [effective_sub, h0, hm, Nat.lt_asymm hm, hs1]
      · simp [effective_sub, h0, hm]
      · simp [effective_sub, h0, hm, Nat.lt_asymm hm, hs2]
    · by_cases hmax : e_a = T.max_exp
      · by_cases ha : m_a = 0
        · by_cases hb : m_b = 0
          · simp [effective_sub, h0, hmax, ha, hb]
          · simp [effective_sub, h0, hmax, ha, hb, hs1, hs2]
        · have hb : m_b = 0 := by
            by_contra hb
            exact hnan ⟨hmax, hmax, ha, hb⟩
          simp [effective_sub, h0, hmax, ha, hb, hs1, hs2]
      · rcases Nat.lt_trichotomy m_a m_b with hm | hm | hm
        · simp [effective_sub, h0, hmax, hm, Nat.lt_asymm hm, hs1]
        · simp [effective_sub, h0, hmax, hm]
        · simp [effective_sub, h0, hmax, hm, Nat.lt_asymm hm, hs2]
  · have hne : e_b ≠ e_a := Ne.symm heq
    by_cases hamax : e_a = T.max_exp
    · have hbmax : e_b ≠ T.max_exp := fun hc => heq (hamax.trans hc.symm)
      have hbmax2 : T.max_exp ≠ e_b := fun hc => hbmax hc.symm
      simp [effective_sub, heq, hne, hamax, hbmax, hbmax2]
    · by_cases hbmax : e_b = T.max_exp
      · have hamax2 : T.max_exp ≠ e_a := fun hc => hamax hc.symm
        simp [effective_sub, heq, hne, hamax, hbmax, hamax2]
      · rcases Nat.lt_or_ge e_a e_b with hlt | hge
        · have hnlt : ¬(e_b < e_a) := Nat.lt_asymm hlt
          simp [effective_sub, heq, hne, hamax, hbmax, hlt, hnlt, hs1]
        · have hlt : e_b < e_a := Nat.lt_of_le_of_ne hge hne
          have hnlt : ¬(e_a < e_b) := Nat.lt_asymm hlt
          simp [effective_sub, heq, hne, hamax, hbmax, hlt, hnlt, hs2]

/-- **C5** (counterexample): two NaNs with different payloads are not
added commutatively — each order returns its first operand. -/
theorem softfloat_add_not_comm :
    softfloat_add f16 0x7C01 0x7C02 ≠ softfloat_add f16 0x7C02 0x7C01 := by
  decide

/-- **C5** (amended): `softfloat_add a b = softfloat_add b a`
bit-exactly, except when both operands are NaNs with different bit
patterns (each order then propagates its first operand). -/
theorem softfloat_add_comm_except_nan (T : FloatType) (hE : 1 ≤ T.EXP)
    (a b : Nat)
    (h : softfloat_classify T a = .Nan → softfloat_classify T b = .Nan → a = b) :
    softfloat_add T a b = softfloat_add T b a := by
  by_cases hab : a = b
  · rw [hab]
  · have hnanab : ¬((extract T a).2.1 = T.max_exp ∧
        (extract T b).2.1 = T.max_exp ∧
        (extract T a).2.2 ≠ 0 ∧ (extract T b).2.2 ≠ 0) := by
      rintro ⟨h1, h2, h3, h4⟩
      exact hab (h ((classify_nan_iff T hE a).mpr ⟨h1, h3⟩)
        ((classify_nan_iff T hE b).mpr ⟨h2, h4⟩))
    have hsa : (extract T a).1 < 2 := bit_lt_two a _
    have hsb : (extract T b).1 < 2 := bit_lt_two b _
    have ha2 : (extract T a).1 = 0 ∨ (extract T a).1 = 1 := by omega
    have hb2 : (extract T b).1 = 0 ∨ (extract T b).1 = 1 := by omega
    simp only [softfloat_add]
    rcases ha2 with ha | ha <;> rcases hb2 with hb | hb <;> rw [ha, hb] <;>
      simp only [Nat.xor_self, Nat.zero_xor, Nat.xor_zero] <;> norm_num
    · exact effective_add_comm T 0 _ _ _ _ hnanab
    · exact effective_sub_comm T 0 _ _ 1 _ _ (by norm_num) (by norm_num) hnanab
    · exact effective_sub_comm T 1 _ _ 0 _ _ (by norm_num) (by norm_num) hnanab
    · exact effective_add_comm T 1 _ _ _ _ hnanab

/-- Witness for C5 at `f16`: `1.0 + 2.0` commutes. -/
theorem softfloat_add_comm_except_nan_witness :
    softfloat_add f16 0x3C00 0x4000 = softfloat_add f16 0x4000 0x3C00 :=
  softfloat_add_comm_except_nan f16 (by decide) 0x3C00 0x4000 (by decide)

end Floating
